/-
Verification of the Recall repository.

Recall lets a conversational agent manipulate a markdown-based memory store by
generating code snippets that a sandboxed executor runs on its behalf.  Two
collaborating pieces are modelled here:

* the memory operation library (`agent/tools.py`; its unit tests live in
  `src/tests/test_tools.py` but the module itself is absent from the source
  tree, so the operations are modelled from the specification document);
* the sandboxed executor (`agent/engine.py`; same situation: its unit tests
  live in `src/tests/test_engine.py`, the module is modelled from the
  specification document);
* the MCP tool `use_memory_agent` of `src/mcp_server/server.py`, embedded
  from the source.

Strings handled by the memory tools are modelled as lists of characters, file
systems as association lists from paths to contents, and the executor as a
fuel-indexed interpreter of a small statement language whose fuel budget
stands for the wall-clock timeout of the child process.
-/
import Mathlib

namespace Recall

/-- Association-list lookup keyed by decidable equality. -/
def alookup {α β : Type} [DecidableEq α] : List (α × β) → α → Option β
  | [], _ => none
  | (k, v) :: rest, a => if k = a then some v else alookup rest a

/-- Association-list update: replaces the binding of an existing key in
place, appends a new binding otherwise. -/
def aset {α β : Type} [DecidableEq α] : List (α × β) → α → β → List (α × β)
  | [], a, b => [(a, b)]
  | (k, v) :: rest, a, b =>
    if k = a then (a, b) :: rest else (k, v) :: aset rest a b

namespace Tools

/-- Strings of the memory tool library, modelled as lists of characters. -/
abbrev Str := List Char

/-- Modelled from the spec: the state of the memory directory subtree that the
memory operation library (`agent/tools.py`, absent from the source tree)
reads and writes: regular files with their contents, and directories. -/
structure MemFS where
  files : List (Str × Str)
  dirs : List Str

/-- Modelled from the spec: `create_file(path, content?) -> bool` of the
memory operation library.  Writes `content` at `path`, overwriting an
existing file; fails on a path that is an existing directory. -/
def create_file (fs : MemFS) (path content : Str) : MemFS × Bool :=
  if path ∈ fs.dirs then (fs, false)
  else ({ fs with files := Recall.aset fs.files path content }, true)

/-- Modelled from the spec: `read_file(path) -> text | "Error: ..."` of the
memory operation library.  Returns the content of the file at `path`, or an
error string when `path` is a directory or names no file. -/
def read_file (fs : MemFS) (path : Str) : Str :=
  if path ∈ fs.dirs then r"Error".data ++ r": not a file: ".data ++ path
  else
    match Recall.alookup fs.files path with
    | some content => content
    | none => r"Error".data ++ r": file not found: ".data ++ path

/-- Index of the first occurrence of `old` inside a string, if any. -/
def firstMatch (old : Str) : Str → Option Nat
  | [] => if List.isPrefixOf old ([] : Str) then some 0 else none
  | c :: rest =>
    if List.isPrefixOf old (c :: rest) then some 0
    else (firstMatch old rest).map (fun i => i + 1)

/-- Replace the first occurrence of `old` by `new`, the count-limited textual
replacement of the host language. -/
def replaceFirst (old new : Str) : Str → Str
  | [] => if List.isPrefixOf old ([] : Str) then new else []
  | c :: rest =>
    if List.isPrefixOf old (c :: rest) then new ++ (c :: rest).drop old.length
    else c :: replaceFirst old new rest

/-- Modelled from the spec: `update_file(path, old, new) -> bool | "Error:
..."` of the memory operation library (replaces first occurrence only);
returns an error string, leaving the store unchanged, when the file is
missing or `old` does not occur in it. -/
def update_file (fs : MemFS) (path old new : Str) : MemFS × Except Str Bool :=
  match Recall.alookup fs.files path with
  | none => (fs, Except.error (r"Error".data ++ r": file not found: ".data ++ path))
  | some content =>
    match firstMatch old content with
    | none => (fs, Except.error (r"Error".data ++ r": old content not found in file".data))
    | some _ =>
      ({ fs with files := Recall.aset fs.files path (replaceFirst old new content) },
        Except.ok true)

/-- Modelled from the spec: `check_if_file_exists(path) -> bool` of the
memory operation library: the path names an existing regular file. -/
def check_if_file_exists (fs : MemFS) (path : Str) : Bool :=
  (Recall.alookup fs.files path).isSome

/-- Modelled from the spec: `check_if_dir_exists(path) -> bool` of the
memory operation library: the path names an existing directory. -/
def check_if_dir_exists (fs : MemFS) (path : Str) : Bool :=
  decide (path ∈ fs.dirs)

/-- The target of a cross-reference: strip the surrounding double brackets
and a trailing `|label` part; a plain path is kept as it is. -/
def parseTarget : Str → Str
  | '[' :: '[' :: rest =>
    (rest.takeWhile (fun c => c ≠ ']')).takeWhile (fun c => c ≠ '|')
  | ref => ref

/-- The markdown extension. -/
def mdExt : Str := r".md".data

/-- Append the markdown extension when the target does not already carry
it. -/
def withMdExt (t : Str) : Str :=
  if List.isPrefixOf mdExt.reverse t.reverse then t else t ++ mdExt

/-- Modelled from the spec: `go_to_link(ref) -> text` of the memory operation
library resolves a `[[target]]` or `[[target|label]]` style cross-reference,
with or without the markdown extension, relative to the memory root, and
reads the target; an unresolved reference gives an `Error: ...` string. -/
def go_to_link (fs : MemFS) (ref : Str) : Str :=
  read_file fs (withMdExt (parseTarget ref))

/-- A result string that reports an error. -/
def isErrorStr (s : Str) : Bool :=
  List.isPrefixOf (r"Error".data) s

/-- A path (file or directory) that exists in the store. -/
def path_exists (fs : MemFS) (p : Str) : Prop :=
  (Recall.alookup fs.files p).isSome ∨ p ∈ fs.dirs

/-- A well-formed store: no path is both a file and a directory. -/
def wfFS (fs : MemFS) : Prop :=
  ∀ p ∈ fs.files.map Prod.fst, p ∉ fs.dirs

end Tools

namespace Engine

/-- Values a snippet can bind; the primitive-safe values of an execution
result. -/
inductive Val where
  | int (n : Int)
  | str (s : String)
  | bool (b : Bool)
  | noneV
deriving DecidableEq, Repr

/-- The local namespace of a running snippet. -/
abbrev Env := List (String × Val)

/-- Exception data: a type name and a message. -/
structure ExnInfo where
  ty : String
  msg : String
deriving DecidableEq, Repr

/-- Expressions of the snippet language. -/
inductive Expr where
  | lit (v : Val)
  | var (x : String)
  | add (a b : Expr)
  | div (a b : Expr)
  | call (f : String) (a b : Expr)

/-- The callables injected into the execution namespace
(`available_functions`), each taking two arguments. -/
abbrev Funcs := List (String × (Val → Val → Except ExnInfo Val))

/-- Expression evaluation against the restricted namespace. -/
def evalExpr (funcs : Funcs) (env : Env) : Expr → Except ExnInfo Val
  | Expr.lit v => Except.ok v
  | Expr.var x =>
    match Recall.alookup env x with
    | some v => Except.ok v
    | none => Except.error (ExnInfo.mk r"NameError" (r"name " ++ x ++ r" is not defined"))
  | Expr.add a b =>
    match evalExpr funcs env a with
    | Except.error e => Except.error e
    | Except.ok va =>
      match evalExpr funcs env b with
      | Except.error e => Except.error e
      | Except.ok vb =>
        match va, vb with
        | Val.int m, Val.int n => Except.ok (Val.int (m + n))
        | Val.str s, Val.str t => Except.ok (Val.str (s ++ t))
        | _, _ => Except.error (ExnInfo.mk r"TypeError" r"unsupported operand types")
  | Expr.div a b =>
    match evalExpr funcs env a with
    | Except.error e => Except.error e
    | Except.ok va =>
      match evalExpr funcs env b with
      | Except.error e => Except.error e
      | Except.ok vb =>
        match va, vb with
        | Val.int m, Val.int n =>
          if n = 0 then Except.error (ExnInfo.mk r"ZeroDivisionError" r"division by zero")
          else Except.ok (Val.int (m / n))
        | _, _ => Except.error (ExnInfo.mk r"TypeError" r"unsupported operand types")
  | Expr.call f a b =>
    match evalExpr funcs env a with
    | Except.error e => Except.error e
    | Except.ok va =>
      match evalExpr funcs env b with
      | Except.error e => Except.error e
      | Except.ok vb =>
        match Recall.alookup funcs f with
        | some impl => impl va vb
        | none => Except.error (ExnInfo.mk r"NameError" (r"name " ++ f ++ r" is not defined"))

/-- Truthiness of a value, as in the host language. -/
def truthy : Val → Bool
  | Val.int n => decide (n ≠ 0)
  | Val.str s => !s.isEmpty
  | Val.bool b => b
  | Val.noneV => false

/-- Filesystem paths of the sandbox, as absolute component lists. -/
abbrev EPath := List String

/-- Canonicalization worker: `acc` holds the already-resolved components in
reverse order. -/
def normalizeAux : List String → EPath → EPath
  | acc, [] => acc.reverse
  | acc, c :: rest =>
    if c = r"." then normalizeAux acc rest
    else if c = r".." then normalizeAux (acc.drop 1) rest
    else normalizeAux (c :: acc) rest

/-- Canonicalize a path: resolve `.` and `..` components. -/
def normalize (p : EPath) : EPath := normalizeAux [] p

/-- Modelled from the spec: the path-restriction policy of `agent/engine.py`
(absent from the source tree) — with an allowed path every file-opening call
is checked by canonicalized-path containment; with no allowed path access is
unrestricted (trusted-caller mode). -/
def allowedBy (ap : Option EPath) (p : EPath) : Bool :=
  match ap with
  | none => true
  | some d => List.isPrefixOf d (normalize p)

/-- The filesystem visible to the sandboxed child process. -/
structure SandFS where
  files : List (EPath × String)
deriving DecidableEq

/-- Statements of the snippet language: assignments, `raise`, file opens for
writing and reading, `try`/`except` on one exception type, and `while`. -/
inductive Stmt where
  | passS
  | assign (x : String) (e : Expr)
  | raiseS (ty msg : String)
  | openWrite (path : EPath) (e : Expr)
  | openRead (path : EPath) (x : String)
  | tryE (body : List Stmt) (ty : String) (handler : List Stmt)
  | whileE (c : Expr) (body : List Stmt)

/-- The state carried through a run: local bindings and the filesystem. -/
structure St where
  env : Env
  fs : SandFS
deriving DecidableEq

/-- Result of running statements under a fuel budget. -/
inductive Res where
  | ok (s : St)
  | exn (s : St) (e : ExnInfo)
  | timedOut (s : St)
deriving DecidableEq

/-- Modelled from the spec: execution of a statement list in the child
process.  Fuel decreases at every interpreter step and stands for the
wall-clock budget; an exhausted budget is the forcible termination of the
runaway child. -/
def run (funcs : Funcs) (ap : Option EPath) : Nat → List Stmt → St → Res
  | 0, _, s => Res.timedOut s
  | _ + 1, [], s => Res.ok s
  | fuel + 1, stmt :: rest, s =>
    match stmt with
    | Stmt.passS => run funcs ap fuel rest s
    | Stmt.assign x e =>
      match evalExpr funcs s.env e with
      | Except.error ex => Res.exn s ex
      | Except.ok v => run funcs ap fuel rest ⟨ Recall.aset s.env x v, s.fs⟩
    | Stmt.raiseS ty msg => Res.exn s (ExnInfo.mk ty msg)
    | Stmt.openWrite p e =>
      match evalExpr funcs s.env e with
      | Except.error ex => Res.exn s ex
      | Except.ok v =>
        match v with
        | Val.str content =>
          if allowedBy ap p then
            run funcs ap fuel rest
              ⟨ s.env, SandFS.mk (Recall.aset s.fs.files (normalize p) content)⟩
          else Res.exn s (ExnInfo.mk r"PermissionError" r"access outside of allowed path denied")
        | _ => Res.exn s (ExnInfo.mk r"TypeError" r"write argument must be str")
    | Stmt.openRead p x =>
      if allowedBy ap p then
        match Recall.alookup s.fs.files (normalize p) with
        | some content => run funcs ap fuel rest ⟨ Recall.aset s.env x (Val.str content), s.fs⟩
        | none => Res.exn s (ExnInfo.mk r"FileNotFoundError" r"no such file or directory")
      else Res.exn s (ExnInfo.mk r"PermissionError" r"access outside of allowed path denied")
    | Stmt.tryE body ty handler =>
      match run funcs ap fuel body s with
      | Res.ok s1 => run funcs ap fuel rest s1
      | Res.timedOut s1 => Res.timedOut s1
      | Res.exn s1 ex =>
        if ex.ty = ty then run funcs ap fuel (handler ++ rest) s1
        else Res.exn s1 ex
    | Stmt.whileE c body =>
      match evalExpr funcs s.env c with
      | Except.error ex => Res.exn s ex
      | Except.ok v =>
        if truthy v then run funcs ap fuel (body ++ Stmt.whileE c body :: rest) s
        else run funcs ap fuel rest s

/-- A snippet as received by the executor: either text that fails to parse,
or a parsed program. -/
inductive Code where
  | malformed (msg : String)
  | prog (stmts : List Stmt)

/-- The default sandbox timeout in seconds, from `agent/settings.py`. -/
def SANDBOX_TIMEOUT : Nat := 20

/-- Modelled from the spec: the full handling of one execution request by
`execute_sandboxed_code` of `agent/engine.py` (absent from the source tree),
returning the `(bindings, error)` pair visible to the caller together with
the filesystem left behind by the child process.  Unparsable text reports a
syntax error with no bindings; an uncaught exception reports its type and
message next to the bindings collected so far; an exhausted budget reports a
timeout with no partial bindings. -/
def execRequest (fs : SandFS) (code : Code) (timeout : Nat) (ap : Option EPath)
    (funcs : Funcs) : (Env × String) × SandFS :=
  match code with
  | Code.malformed msg => (([], r"SyntaxError: " ++ msg), fs)
  | Code.prog stmts =>
    match run funcs ap timeout stmts ⟨ [], fs⟩ with
    | Res.ok s1 => ((s1.env, r""), s1.fs)
    | Res.exn s1 ex => ((s1.env, ex.ty ++ r": " ++ ex.msg), s1.fs)
    | Res.timedOut s1 => (([], r"TimeoutError: execution timed out"), s1.fs)

/-- Modelled from the spec: `execute_sandboxed_code(code, timeout,
allowed_path, available_functions)` returns the snippet's local bindings and
an error string, empty on success. -/
def execute_sandboxed_code (fs : SandFS) (code : Code) (timeout : Nat)
    (ap : Option EPath) (funcs : Funcs) : Env × String :=
  (execRequest fs code timeout ap funcs).1

/-- The state carried out of a run, whatever the outcome. -/
def Res.state : Res → St
  | Res.ok s => s
  | Res.exn s _ => s
  | Res.timedOut s => s

/-- Reference semantics of a straight-line snippet: thread the top-level
assignments through the namespace in order, failing when a right-hand side
raises. -/
def evalAssignments (funcs : Funcs) : List (String × Expr) → Env → Option Env
  | [], env => some env
  | (x, e) :: rest, env =>
    match evalExpr funcs env e with
    | Except.ok v => evalAssignments funcs rest (Recall.aset env x v)
    | Except.error _ => none

/-- The two-argument addition callable used by the test suite as an
available function. -/
def addImpl : Val → Val → Except ExnInfo Val
  | Val.int m, Val.int n => Except.ok (Val.int (m + n))
  | _, _ => Except.error (ExnInfo.mk r"TypeError" r"unsupported operand types")

/-- The snippet of the path-restriction test: inside `try`, write to a file
outside the allowed directory and bind `escaped` to true; the handler for
the permission denial binds `escaped` to false. -/
def escapeCode : Code :=
  Code.prog [Stmt.tryE
    [Stmt.openWrite [r"tmp", r"secret.txt"] (Expr.lit (Val.str r"escaped")),
     Stmt.assign (r"escaped") (Expr.lit (Val.bool true))]
    (r"PermissionError")
    [Stmt.assign (r"escaped") (Expr.lit (Val.bool false))]]

end Engine

namespace Server

/-- An exception crossing the tool boundary: a type name and a message. -/
structure AgentExc where
  tyName : String
  msg : String

/-- The behaviour of the underlying memory agent during one call: whether
construction succeeds, and the outcome of `chat` on a given question (the
reply is absent when the agent produced none). -/
structure AgentRun where
  construct : Except AgentExc Unit
  chat : String → Except AgentExc (Option String)

/-- The question actually passed to `agent.chat` in
`src/mcp_server/server.py`: the user question, with the filter block
appended when a nonempty filter string was read. -/
def effective_question (question filters : String) : String :=
  if 0 < filters.length then
    question ++ "\n\n" ++ r"<filter>" ++ filters ++ r"</filter>"
  else question

/-- Stripping of surrounding whitespace (the `strip()` of the host
language), written over the character list so that it evaluates by reduction. -/
def pyStrip (s : String) : String :=
  String.mk (((s.data.dropWhile Char.isWhitespace).reverse.dropWhile
    Char.isWhitespace).reverse)

/-- The rendering of a caught exception, from `src/mcp_server/server.py`. -/
def agentErrorStr (e : AgentExc) : String :=
  r"agent_error: " ++ e.tyName ++ r": " ++ e.msg

/-- The MCP tool `use_memory_agent` of `src/mcp_server/server.py`: construct
the agent, append filters to the question, run `chat`, and return the reply
stripped of surrounding whitespace (an absent reply yields the empty
string); any exception raised inside the tool body is rendered as an
`agent_error: ...` string instead of propagating to the caller. -/
def use_memory_agent (runA : AgentRun) (question filters : String) : String :=
  match runA.construct with
  | Except.error e => agentErrorStr e
  | Except.ok _ =>
    match runA.chat (effective_question question filters) with
    | Except.error e => agentErrorStr e
    | Except.ok reply => pyStrip (reply.getD r"")

end Server

/-! ### Generic association-list lemmas -/

theorem alookup_aset_self {α β : Type} [DecidableEq α] (l : List (α × β))
    (a : α) (b : β) : alookup (aset l a b) a = some b := by
  induction l with
  | nil => simp [alookup, aset]
  | cons kv rest ih =>
    obtain ⟨k, v⟩ := kv
    by_cases h : k = a
    · simp [alookup, aset, h]
    · simp [alookup, aset, h, ih]

theorem alookup_aset_ne {α β : Type} [DecidableEq α] (l : List (α × β))
    (a a' : α) (b : β) (h : a' ≠ a) :
    alookup (aset l a b) a' = alookup l a' := by
  induction l with
  | nil => simp [alookup, aset, Ne.symm h]
  | cons kv rest ih =>
    obtain ⟨k, v⟩ := kv
    by_cases hk : k = a
    · subst hk
      simp [alookup, aset, Ne.symm h]
    · by_cases hk' : k = a'
      · simp [alookup, aset, hk, hk', h]
      · simp [alookup, aset, hk, hk', ih]

theorem alookup_isSome_mem {α β : Type} [DecidableEq α] (l : List (α × β))
    (a : α) (h : (alookup l a).isSome) : a ∈ l.map Prod.fst := by
  induction l with
  | nil => simp [alookup] at h
  | cons kv rest ih =>
    obtain ⟨k, v⟩ := kv
    by_cases hk : k = a
    · simp [hk]
    · simp [alookup, hk] at h
      simp [ih h]

/-! ### Lemmas about the memory operation library -/

theorem isErrorStr_append (s : Tools.Str) :
    Tools.isErrorStr (r"Error".data ++ s) = true := by
  unfold Tools.isErrorStr
  simp [List.isPrefixOf_iff_prefix]

theorem replaceFirst_spec (old new : Tools.Str) :
    ∀ (content : Tools.Str) (i : Nat), Tools.firstMatch old content = some i →
      Tools.replaceFirst old new content =
        content.take i ++ new ++ content.drop (i + old.length) ∧
      ∀ j, j < i → List.isPrefixOf old (content.drop j) = false := by
  intro content
  induction content with
  | nil =>
    intro i hi
    by_cases h : List.isPrefixOf old ([] : Tools.Str)
    · simp [Tools.firstMatch, h] at hi
      subst hi
      simp [Tools.replaceFirst, h]
    · simp [Tools.firstMatch, h] at hi
  | cons c rest ih =>
    intro i hi
    by_cases h : List.isPrefixOf old (c :: rest)
    · simp [Tools.firstMatch, h] at hi
      subst hi
      simp [Tools.replaceFirst, h]
    · simp [Tools.firstMatch, h] at hi
      obtain ⟨i', hfm, hsucc⟩ := hi
      obtain ⟨he, hmin⟩ := ih i' hfm
      subst hsucc
      constructor
      · have harith : i' + 1 + old.length = (i' + old.length) + 1 := by omega
        simp [Tools.replaceFirst, h, he, harith, List.drop_succ_cons]
      · intro j hj
        match j with
        | 0 =>
          rw [List.drop_zero]
          exact Bool.eq_false_iff.mpr h
        | k + 1 =>
          have hk : k < i' := by omega
          rw [List.drop_succ_cons]
          exact hmin k (by omega)

theorem takeWhile_append_all {p : Char → Bool} :
    ∀ (xs ys : List Char), (∀ c ∈ xs, p c = true) →
      (xs ++ ys).takeWhile p = xs ++ ys.takeWhile p := by
  intro xs
  induction xs with
  | nil => simp
  | cons c rest ih =>
    intro ys h
    have hc := h c (by simp)
    simp only [List.cons_append, List.takeWhile_cons, hc, if_true]
    rw [ih ys (fun d hd => h d (by simp [hd]))]

theorem takeWhile_all {p : Char → Bool} :
    ∀ (xs : List Char), (∀ c ∈ xs, p c = true) → xs.takeWhile p = xs := by
  intro xs h
  have := takeWhile_append_all xs [] h
  simpa using this

theorem isPrefixOf_append_self (l s : List Char) :
    List.isPrefixOf l (l ++ s) = true := by
  simp [List.isPrefixOf_iff_prefix]

theorem withMdExt_append_md (t : Tools.Str) :
    Tools.withMdExt (t ++ Tools.mdExt) = t ++ Tools.mdExt := by
  unfold Tools.withMdExt
  rw [List.reverse_append, isPrefixOf_append_self]
  simp

theorem withMdExt_no_md (t : Tools.Str)
    (h : List.isPrefixOf Tools.mdExt.reverse t.reverse = false) :
    Tools.withMdExt t = t ++ Tools.mdExt := by
  unfold Tools.withMdExt
  simp [h]

/-! ### Claims about the memory operation library -/

/-- Claim C7: `create_file` followed by `read_file` on the same path
round-trips the content exactly: creation reports success and the read
returns precisely the written content. -/
theorem claim_C7_create_read_roundtrip (fs : Tools.MemFS) (path content : Tools.Str)
    (h : path ∉ fs.dirs) :
    (Tools.create_file fs path content).2 = true ∧
    Tools.read_file (Tools.create_file fs path content).1 path = content := by
  unfold Tools.create_file Tools.read_file
  simp [h, alookup_aset_self]

/-- Witness for claim C7 at a concrete store, path, and content. -/
theorem claim_C7_witness :
    (Tools.create_file (Tools.MemFS.mk [] []) (r"note.md".data) (r"hello".data)).2 = true ∧
    Tools.read_file
      (Tools.create_file (Tools.MemFS.mk [] []) (r"note.md".data) (r"hello".data)).1
      (r"note.md".data) = r"hello".data :=
  claim_C7_create_read_roundtrip (Tools.MemFS.mk [] []) (r"note.md".data)
    (r"hello".data) (by simp)

/-- Claim C6: on a file containing `old`, `update_file` replaces exactly the
first occurrence of `old` with `new` (no earlier position carries an
occurrence) and returns true; when `old` does not occur, or the file does
not exist, an error string comes back and the store is unchanged. -/
theorem claim_C6_update_file_first_occurrence (fs : Tools.MemFS)
    (path old new : Tools.Str) :
    (∀ content i, Recall.alookup fs.files path = some content →
      Tools.firstMatch old content = some i →
      (Tools.update_file fs path old new =
        (Tools.MemFS.mk
          (Recall.aset fs.files path
            (content.take i ++ new ++ content.drop (i + old.length))) fs.dirs,
          Except.ok true) ∧
       ∀ j, j < i → List.isPrefixOf old (content.drop j) = false)) ∧
    (∀ content, Recall.alookup fs.files path = some content →
      Tools.firstMatch old content = none →
      ∃ e, Tools.update_file fs path old new = (fs, Except.error e) ∧
        Tools.isErrorStr e = true) ∧
    (Recall.alookup fs.files path = none →
      ∃ e, Tools.update_file fs path old new = (fs, Except.error e) ∧
        Tools.isErrorStr e = true) := by
  refine ⟨?_, ?_, ?_⟩
  · intro content i hc hfm
    obtain ⟨he, hmin⟩ := replaceFirst_spec old new content i hfm
    refine ⟨?_, hmin⟩
    simp [Tools.update_file, hc, hfm, he]
  · intro content hc hfm
    refine ⟨r"Error".data ++ r": old content not found in file".data, ?_, ?_⟩
    · simp [Tools.update_file, hc, hfm]
    · exact isErrorStr_append _
  · intro hc
    refine ⟨r"Error".data ++ r": file not found: ".data ++ path, ?_, ?_⟩
    · simp [Tools.update_file, hc]
    · exact isErrorStr_append _

/-- Witness for claim C6: the content `a a a` with `old = a`, `new = b`
becomes `b a a`; a missing `old` and a missing file give error strings. -/
theorem claim_C6_witness :
    (Tools.update_file (Tools.MemFS.mk [(r"note.md".data, r"a a a".data)] [])
        (r"note.md".data) (r"a".data) (r"b".data)).2 = Except.ok true ∧
    Recall.alookup (Tools.update_file (Tools.MemFS.mk [(r"note.md".data, r"a a a".data)] [])
        (r"note.md".data) (r"a".data) (r"b".data)).1.files (r"note.md".data) =
      some (r"b a a".data) ∧
    (∃ e, Tools.update_file (Tools.MemFS.mk [(r"note.md".data, r"a a a".data)] [])
        (r"note.md".data) (r"zz".data) (r"b".data) =
      (Tools.MemFS.mk [(r"note.md".data, r"a a a".data)] [], Except.error e) ∧
      Tools.isErrorStr e = true) := by
  have h := claim_C6_update_file_first_occurrence
    (Tools.MemFS.mk [(r"note.md".data, r"a a a".data)] [])
    (r"note.md".data) (r"a".data) (r"b".data)
  have h1 := (h.1 (r"a a a".data) 0 (by decide) (by decide)).1
  have h2 := claim_C6_update_file_first_occurrence
    (Tools.MemFS.mk [(r"note.md".data, r"a a a".data)] [])
    (r"note.md".data) (r"zz".data) (r"b".data)
  refine ⟨by rw [h1], by rw [h1]; decide, ?_⟩
  exact h2.2.1 (r"a a a".data) (by decide) (by decide)

/-- Parsing a bracketed link whose target contains neither a closing bracket
nor a label separator recovers the target. -/
theorem parseTarget_link (t : Tools.Str) (ht1 : ∀ c ∈ t, c ≠ ']')
    (ht2 : ∀ c ∈ t, c ≠ '|') :
    Tools.parseTarget ('[' :: '[' :: (t ++ [']', ']'])) = t := by
  have h1 : (t ++ [']', ']']).takeWhile (fun c => !decide (c = ']')) = t := by
    rw [takeWhile_append_all t [']', ']'] (fun c hc => by simp [ht1 c hc])]
    simp
  have h2 : t.takeWhile (fun c => !decide (c = '|')) = t :=
    takeWhile_all t (fun c hc => by simp [ht2 c hc])
  simp [Tools.parseTarget, h1, h2]

/-- Claim C8: a cross-reference without the markdown extension resolves to
the same content as the same reference with the extension, and every
unresolvable reference yields an `Error` string. -/
theorem claim_C8_go_to_link (fs : Tools.MemFS) :
    (∀ t : Tools.Str, (∀ c ∈ t, c ≠ ']') → (∀ c ∈ t, c ≠ '|') →
      List.isPrefixOf Tools.mdExt.reverse t.reverse = false →
      Tools.go_to_link fs ('[' :: '[' :: (t ++ r"]]".data)) =
        Tools.go_to_link fs ('[' :: '[' :: (t ++ r".md]]".data))) ∧
    (∀ ref : Tools.Str,
      (Tools.withMdExt (Tools.parseTarget ref) ∈ fs.dirs ∨
        Recall.alookup fs.files (Tools.withMdExt (Tools.parseTarget ref)) = none) →
      Tools.isErrorStr (Tools.go_to_link fs ref) = true) := by
  constructor
  · intro t ht1 ht2 hm
    have hmd1 : ∀ c ∈ Tools.mdExt, c ≠ ']' := by decide
    have hmd2 : ∀ c ∈ Tools.mdExt, c ≠ '|' := by decide
    have ha1 : ∀ c ∈ t ++ Tools.mdExt, c ≠ ']' := by
      intro c hc
      rcases List.mem_append.mp hc with h | h
      · exact ht1 c h
      · exact hmd1 c h
    have ha2 : ∀ c ∈ t ++ Tools.mdExt, c ≠ '|' := by
      intro c hc
      rcases List.mem_append.mp hc with h | h
      · exact ht2 c h
      · exact hmd2 c h
    have e1 : (t ++ r"]]".data) = t ++ [']', ']'] := rfl
    have e2 : (t ++ r".md]]".data) = (t ++ Tools.mdExt) ++ [']', ']'] := by
      rw [List.append_assoc]
      rfl
    unfold Tools.go_to_link
    rw [e1, e2, parseTarget_link t ht1 ht2,
      parseTarget_link (t ++ Tools.mdExt) ha1 ha2,
      withMdExt_no_md t hm, withMdExt_append_md]
  · intro ref h
    unfold Tools.go_to_link Tools.read_file
    by_cases hd : (Tools.withMdExt (Tools.parseTarget ref)) ∈ fs.dirs
    · simp only [hd, if_true]
      exact isErrorStr_append _
    · rcases h with h | h
      · exact absurd h hd
      · simp only [hd, if_false, h]
        exact isErrorStr_append _

/-- Witness for claim C8: the link to `entities/alice` with and without the
markdown extension, over a store holding that entity file, and an
unresolvable link over the same store. -/
theorem claim_C8_witness :
    Tools.go_to_link (Tools.MemFS.mk [(r"entities/alice.md".data, r"alice".data)] [])
      ('[' :: '[' :: (r"entities/alice".data ++ r"]]".data)) =
    Tools.go_to_link (Tools.MemFS.mk [(r"entities/alice.md".data, r"alice".data)] [])
      ('[' :: '[' :: (r"entities/alice".data ++ r".md]]".data)) ∧
    Tools.isErrorStr
      (Tools.go_to_link (Tools.MemFS.mk [(r"entities/alice.md".data, r"alice".data)] [])
        (r"[[entities/nobody]]".data)) = true := by
  constructor
  · exact (claim_C8_go_to_link
      (Tools.MemFS.mk [(r"entities/alice.md".data, r"alice".data)] [])).1
      (r"entities/alice".data) (by decide) (by decide) (by decide)
  · exact (claim_C8_go_to_link
      (Tools.MemFS.mk [(r"entities/alice.md".data, r"alice".data)] [])).2
      (r"[[entities/nobody]]".data) (by right; decide)

/-- Claim C10: in a store where no path is both a file and a directory,
`check_if_file_exists` holds exactly of existing regular files (and is false
on an existing directory), `check_if_dir_exists` holds exactly of existing
directories (and is false on an existing regular file), and both are false
on a nonexistent path. -/
theorem claim_C10_existence_checks (fs : Tools.MemFS) (p : Tools.Str)
    (hwf : Tools.wfFS fs) :
    (Tools.check_if_file_exists fs p = true ↔
      (Tools.path_exists fs p ∧ p ∉ fs.dirs)) ∧
    (p ∈ fs.dirs → Tools.check_if_file_exists fs p = false) ∧
    (Tools.check_if_dir_exists fs p = true ↔
      (Tools.path_exists fs p ∧ (Recall.alookup fs.files p).isNone)) ∧
    ((Recall.alookup fs.files p).isSome → Tools.check_if_dir_exists fs p = false) ∧
    (¬ Tools.path_exists fs p →
      Tools.check_if_file_exists fs p = false ∧ Tools.check_if_dir_exists fs p = false) := by
  have hfd : (Recall.alookup fs.files p).isSome → p ∉ fs.dirs := fun hs =>
    hwf p (alookup_isSome_mem fs.files p hs)
  refine ⟨?_, ?_, ?_, ?_, ?_⟩
  · unfold Tools.check_if_file_exists Tools.path_exists
    constructor
    · intro hs
      exact ⟨Or.inl hs, hfd hs⟩
    · rintro ⟨hex | hdir, hnd⟩
      · exact hex
      · exact absurd hdir hnd
  · intro hdir
    unfold Tools.check_if_file_exists
    by_cases hs : (Recall.alookup fs.files p).isSome
    · exact absurd hdir (hfd hs)
    · simpa using hs
  · unfold Tools.check_if_dir_exists Tools.path_exists
    constructor
    · intro hdir
      have hd : p ∈ fs.dirs := by simpa using hdir
      refine ⟨Or.inr hd, ?_⟩
      by_cases hs : (Recall.alookup fs.files p).isSome
      · exact absurd hd (hfd hs)
      · simpa [Option.isNone_iff_eq_none] using hs
    · rintro ⟨hex | hdir, hnone⟩
      · rw [Option.isSome_iff_exists] at hex
        obtain ⟨v, hv⟩ := hex
        rw [hv] at hnone
        simp at hnone
      · simpa using hdir
  · intro hs
    unfold Tools.check_if_dir_exists
    simpa using hfd hs
  · intro hne
    unfold Tools.path_exists at hne
    push_neg at hne
    obtain ⟨hnf, hnd⟩ := hne
    constructor
    · unfold Tools.check_if_file_exists
      simpa using hnf
    · unfold Tools.check_if_dir_exists
      simpa using hnd

/-- Witness for claim C10 at a concrete store holding one file and one
directory. -/
theorem claim_C10_witness :
    (Tools.check_if_file_exists
        (Tools.MemFS.mk [(r"user.md".data, r"x".data)] [r"entities".data])
        (r"entities".data) = true ↔
      (Tools.path_exists
          (Tools.MemFS.mk [(r"user.md".data, r"x".data)] [r"entities".data])
          (r"entities".data) ∧
        r"entities".data ∉
          (Tools.MemFS.mk [(r"user.md".data, r"x".data)] [r"entities".data]).dirs)) ∧
    (r"entities".data ∈
        (Tools.MemFS.mk [(r"user.md".data, r"x".data)] [r"entities".data]).dirs →
      Tools.check_if_file_exists
        (Tools.MemFS.mk [(r"user.md".data, r"x".data)] [r"entities".data])
        (r"entities".data) = false) ∧
    (Tools.check_if_dir_exists
        (Tools.MemFS.mk [(r"user.md".data, r"x".data)] [r"entities".data])
        (r"entities".data) = true ↔
      (Tools.path_exists
          (Tools.MemFS.mk [(r"user.md".data, r"x".data)] [r"entities".data])
          (r"entities".data) ∧
        (Recall.alookup
          (Tools.MemFS.mk [(r"user.md".data, r"x".data)] [r"entities".data]).files
          (r"entities".data)).isNone)) ∧
    ((Recall.alookup
        (Tools.MemFS.mk [(r"user.md".data, r"x".data)] [r"entities".data]).files
        (r"entities".data)).isSome →
      Tools.check_if_dir_exists
        (Tools.MemFS.mk [(r"user.md".data, r"x".data)] [r"entities".data])
        (r"entities".data) = false) ∧
    (¬ Tools.path_exists
        (Tools.MemFS.mk [(r"user.md".data, r"x".data)] [r"entities".data])
        (r"entities".data) →
      Tools.check_if_file_exists
        (Tools.MemFS.mk [(r"user.md".data, r"x".data)] [r"entities".data])
        (r"entities".data) = false ∧
      Tools.check_if_dir_exists
        (Tools.MemFS.mk [(r"user.md".data, r"x".data)] [r"entities".data])
        (r"entities".data) = false) :=
  claim_C10_existence_checks
    (Tools.MemFS.mk [(r"user.md".data, r"x".data)] [r"entities".data])
    (r"entities".data) (by unfold Tools.wfFS; decide)

/-! ### Lemmas about the sandboxed executor -/

theorem run_assignments (funcs : Engine.Funcs) (ap : Option Engine.EPath) :
    ∀ (asgs : List (String × Engine.Expr)) (fuel : Nat) (env envF : Engine.Env)
      (fs : Engine.SandFS),
      Engine.evalAssignments funcs asgs env = some envF →
      asgs.length < fuel →
      Engine.run funcs ap fuel (asgs.map (fun p => Engine.Stmt.assign p.1 p.2))
        ⟨ env, fs⟩ = Engine.Res.ok ⟨ envF, fs⟩ := by
  intro asgs
  induction asgs with
  | nil =>
    intro fuel env envF fs h hf
    match fuel with
    | 0 => omega
    | n + 1 =>
      simp [Engine.evalAssignments] at h
      subst h
      simp [Engine.run]
  | cons hd tl ih =>
    intro fuel env envF fs h hf
    obtain ⟨x, e⟩ := hd
    match fuel with
    | 0 => omega
    | n + 1 =>
      cases he : Engine.evalExpr funcs env e with
      | error ex => simp [Engine.evalAssignments, he] at h
      | ok v =>
        simp [Engine.evalAssignments, he] at h
        simp [Engine.run, he]
        exact ih n (Recall.aset env x v) envF fs h (by simp at hf; omega)

theorem run_whileTrue (funcs : Engine.Funcs) (ap : Option Engine.EPath) :
    ∀ (fuel : Nat) (s : Engine.St),
      Engine.run funcs ap fuel
        [Engine.Stmt.whileE (Engine.Expr.lit (Engine.Val.bool true)) [Engine.Stmt.passS]] s =
        Engine.Res.timedOut s ∧
      Engine.run funcs ap fuel
        (Engine.Stmt.passS ::
          [Engine.Stmt.whileE (Engine.Expr.lit (Engine.Val.bool true)) [Engine.Stmt.passS]]) s =
        Engine.Res.timedOut s := by
  intro fuel
  induction fuel with
  | zero => intro s; exact ⟨rfl, rfl⟩
  | succ n ih =>
    intro s
    constructor
    · simp only [Engine.run, Engine.evalExpr, Engine.truthy, if_true, List.cons_append,
        List.nil_append]
      exact (ih s).2
    · simp only [Engine.run]
      exact (ih s).1

/-! ### Claims about the sandboxed executor -/

/-- Claim C2: a straight-line snippet of pure assignments that all evaluate
without error returns an empty error string and exactly the bindings of the
reference semantics (each top-level assignment, in order, with its computed
value); the empty `pass` snippet succeeds with empty bindings; the snippet
`x = 1 + 1` binds `x` to 2. -/
theorem claim_C2_pure_snippets :
    (∀ (funcs : Engine.Funcs) (asgs : List (String × Engine.Expr)) (fs : Engine.SandFS)
        (timeout : Nat) (ap : Option Engine.EPath) (envF : Engine.Env),
      Engine.evalAssignments funcs asgs [] = some envF →
      asgs.length < timeout →
      Engine.execute_sandboxed_code fs
        (Engine.Code.prog (asgs.map (fun p => Engine.Stmt.assign p.1 p.2)))
        timeout ap funcs = (envF, r"")) ∧
    (∀ (funcs : Engine.Funcs) (fs : Engine.SandFS) (timeout : Nat) (ap : Option Engine.EPath),
      1 < timeout →
      Engine.execute_sandboxed_code fs (Engine.Code.prog [Engine.Stmt.passS])
        timeout ap funcs = ([], r"")) ∧
    (∀ (fs : Engine.SandFS) (ap : Option Engine.EPath),
      Engine.execute_sandboxed_code fs
        (Engine.Code.prog [Engine.Stmt.assign (r"x")
          (Engine.Expr.add (Engine.Expr.lit (Engine.Val.int 1)) (Engine.Expr.lit (Engine.Val.int 1)))])
        Engine.SANDBOX_TIMEOUT ap [] = ([(r"x", Engine.Val.int 2)], r"")) := by
  refine ⟨?_, ?_, ?_⟩
  · intro funcs asgs fs timeout ap envF h hf
    simp only [Engine.execute_sandboxed_code, Engine.execRequest]
    rw [run_assignments funcs ap asgs timeout [] envF fs h hf]
  · intro funcs fs timeout ap ht
    match timeout with
    | 0 | 1 => omega
    | n + 2 =>
      unfold Engine.execute_sandboxed_code Engine.execRequest
      simp [Engine.run]
  · intro fs ap
    unfold Engine.execute_sandboxed_code Engine.execRequest Engine.SANDBOX_TIMEOUT
    simp [Engine.run, Engine.evalExpr, Recall.aset]

/-- Witness for claim C2: the snippet `x = 1 + 1` under the default timeout,
with no available functions, binds `x` to 2 with an empty error. -/
theorem claim_C2_witness :
    Engine.execute_sandboxed_code (Engine.SandFS.mk [])
      (Engine.Code.prog ([((r"x" : String),
          Engine.Expr.add (Engine.Expr.lit (Engine.Val.int 1))
            (Engine.Expr.lit (Engine.Val.int 1)))].map
        (fun p => Engine.Stmt.assign p.1 p.2)))
      Engine.SANDBOX_TIMEOUT none [] = ([(r"x", Engine.Val.int 2)], r"") :=
  claim_C2_pure_snippets.1 []
    [((r"x" : String),
      Engine.Expr.add (Engine.Expr.lit (Engine.Val.int 1)) (Engine.Expr.lit (Engine.Val.int 1)))]
    (Engine.SandFS.mk []) Engine.SANDBOX_TIMEOUT none [(r"x", Engine.Val.int 2)]
    (by decide) (by decide)

/-- Claim C3: a snippet that loops forever exhausts every fuel budget: the
request reports a timeout error, returns no bindings at all, and leaves the
filesystem as the loop left it (unchanged, since the loop performs no
writes); more generally, any run that exhausts its budget reports the
timeout error with no partial bindings. -/
theorem claim_C3_timeout_enforced :
    (∀ (fs : Engine.SandFS) (timeout : Nat) (ap : Option Engine.EPath) (funcs : Engine.Funcs),
      Engine.execRequest fs
        (Engine.Code.prog
          [Engine.Stmt.whileE (Engine.Expr.lit (Engine.Val.bool true)) [Engine.Stmt.passS]])
        timeout ap funcs = (([], r"TimeoutError: execution timed out"), fs)) ∧
    (∀ (fs : Engine.SandFS) (stmts : List Engine.Stmt) (timeout : Nat)
        (ap : Option Engine.EPath) (funcs : Engine.Funcs) (s1 : Engine.St),
      Engine.run funcs ap timeout stmts ⟨ [], fs⟩ = Engine.Res.timedOut s1 →
      Engine.execute_sandboxed_code fs (Engine.Code.prog stmts) timeout ap funcs =
        ([], r"TimeoutError: execution timed out")) := by
  constructor
  · intro fs timeout ap funcs
    simp only [Engine.execRequest]
    rw [(run_whileTrue funcs ap timeout ⟨ [], fs⟩).1]
  · intro fs stmts timeout ap funcs s1 h
    simp only [Engine.execute_sandboxed_code, Engine.execRequest]
    rw [h]

/-- Witness for claim C3: the infinite loop under a two-second budget, whose
run exhausts the budget and reports the timeout with no bindings. -/
theorem claim_C3_witness :
    Engine.execute_sandboxed_code (Engine.SandFS.mk [])
      (Engine.Code.prog
        [Engine.Stmt.whileE (Engine.Expr.lit (Engine.Val.bool true)) [Engine.Stmt.passS]])
      2 none [] = ([], r"TimeoutError: execution timed out") :=
  claim_C3_timeout_enforced.2 (Engine.SandFS.mk [])
    [Engine.Stmt.whileE (Engine.Expr.lit (Engine.Val.bool true)) [Engine.Stmt.passS]]
    2 none [] ⟨ [], Engine.SandFS.mk []⟩ (by decide)

/-- Claim C5: a callable supplied under a name through
`available_functions` can be called by the snippet and its return value
bound: in general any successful binary call binds its result, and in
particular `result = add(3, 4)` with the addition callable binds `result`
to 7 with an empty error. -/
theorem claim_C5_available_functions :
    (∀ (fs : Engine.SandFS) (timeout : Nat) (funcs : Engine.Funcs) (f x : String)
        (impl : Engine.Val → Engine.Val → Except Engine.ExnInfo Engine.Val)
        (va vb v : Engine.Val),
      Recall.alookup funcs f = some impl →
      impl va vb = Except.ok v →
      1 < timeout →
      Engine.execute_sandboxed_code fs
        (Engine.Code.prog [Engine.Stmt.assign x
          (Engine.Expr.call f (Engine.Expr.lit va) (Engine.Expr.lit vb))])
        timeout none funcs = ([(x, v)], r"")) ∧
    (∀ (fs : Engine.SandFS),
      Engine.execute_sandboxed_code fs
        (Engine.Code.prog [Engine.Stmt.assign (r"result")
          (Engine.Expr.call (r"add") (Engine.Expr.lit (Engine.Val.int 3))
            (Engine.Expr.lit (Engine.Val.int 4)))])
        Engine.SANDBOX_TIMEOUT none [(r"add", Engine.addImpl)] =
        ([(r"result", Engine.Val.int 7)], r"")) := by
  constructor
  · intro fs timeout funcs f x impl va vb v h1 h2 ht
    match timeout with
    | 0 | 1 => omega
    | n + 2 =>
      unfold Engine.execute_sandboxed_code Engine.execRequest
      simp [Engine.run, Engine.evalExpr, h1, h2, Recall.aset]
  · intro fs
    unfold Engine.execute_sandboxed_code Engine.execRequest Engine.SANDBOX_TIMEOUT
    simp [Engine.run, Engine.evalExpr, Engine.addImpl, Recall.alookup, Recall.aset]

/-- Witness for claim C5: the addition callable under the name `add`, called
on 3 and 4 and bound to `result`. -/
theorem claim_C5_witness :
    Engine.execute_sandboxed_code (Engine.SandFS.mk [])
      (Engine.Code.prog [Engine.Stmt.assign (r"result")
        (Engine.Expr.call (r"add") (Engine.Expr.lit (Engine.Val.int 3))
          (Engine.Expr.lit (Engine.Val.int 4)))])
      Engine.SANDBOX_TIMEOUT none [(r"add", Engine.addImpl)] =
      ([(r"result", Engine.Val.int 7)], r"") :=
  claim_C5_available_functions.1 (Engine.SandFS.mk []) Engine.SANDBOX_TIMEOUT
    [(r"add", Engine.addImpl)] (r"add") (r"result") Engine.addImpl
    (Engine.Val.int 3) (Engine.Val.int 4) (Engine.Val.int 7)
    (by simp [Recall.alookup]) (by rfl) (by decide)

theorem run_outside_unchanged (funcs : Engine.Funcs) (d : Engine.EPath) :
    ∀ (fuel : Nat) (stmts : List Engine.Stmt) (s : Engine.St) (p : Engine.EPath),
      List.isPrefixOf d p = false →
      Recall.alookup ((Engine.run funcs (some d) fuel stmts s).state).fs.files p =
        Recall.alookup s.fs.files p := by
  intro fuel
  induction fuel with
  | zero => intro stmts s p hp; rfl
  | succ n ih =>
    intro stmts s p hp
    match stmts with
    | [] => rfl
    | Engine.Stmt.passS :: rest =>
      simp only [Engine.run]
      exact ih rest s p hp
    | Engine.Stmt.assign x e :: rest =>
      cases he : Engine.evalExpr funcs s.env e with
      | error ex => simp only [Engine.run, he, Engine.Res.state]
      | ok v =>
        simp only [Engine.run, he]
        exact ih rest ⟨ Recall.aset s.env x v, s.fs⟩ p hp
    | Engine.Stmt.raiseS ty msg :: rest =>
      simp only [Engine.run, Engine.Res.state]
    | Engine.Stmt.openWrite q e :: rest =>
      cases he : Engine.evalExpr funcs s.env e with
      | error ex => simp only [Engine.run, he, Engine.Res.state]
      | ok v =>
        cases v with
        | str content =>
          cases hal : Engine.allowedBy (some d) q with
          | false => simp only [Engine.run, he, hal, Bool.false_eq_true, if_false,
              Engine.Res.state]
          | true =>
            simp only [Engine.run, he, hal, if_true]
            have hne : p ≠ Engine.normalize q := by
              intro hqp
              rw [hqp] at hp
              simp only [Engine.allowedBy] at hal
              rw [hp] at hal
              exact Bool.noConfusion hal
            have hrest := ih rest
              ⟨ s.env, Engine.SandFS.mk (Recall.aset s.fs.files (Engine.normalize q) content)⟩
              p hp
            rw [hrest]
            exact alookup_aset_ne s.fs.files (Engine.normalize q) p content hne
        | int m => simp only [Engine.run, he, Engine.Res.state]
        | bool b => simp only [Engine.run, he, Engine.Res.state]
        | noneV => simp only [Engine.run, he, Engine.Res.state]
    | Engine.Stmt.openRead q x :: rest =>
      cases hal : Engine.allowedBy (some d) q with
      | false => simp only [Engine.run, hal, Bool.false_eq_true, if_false, Engine.Res.state]
      | true =>
        cases hl : Recall.alookup s.fs.files (Engine.normalize q) with
        | none => simp only [Engine.run, hal, if_true, hl, Engine.Res.state]
        | some content =>
          simp only [Engine.run, hal, if_true, hl]
          exact ih rest ⟨ Recall.aset s.env x (Engine.Val.str content), s.fs⟩ p hp
    | Engine.Stmt.tryE body ty handler :: rest =>
      have hbody := ih body s p hp
      cases hb : Engine.run funcs (some d) n body s with
      | ok s1 =>
        rw [hb] at hbody
        simp only [Engine.run, hb]
        rw [ih rest s1 p hp]
        exact hbody
      | timedOut s1 =>
        rw [hb] at hbody
        simp only [Engine.run, hb, Engine.Res.state]
        exact hbody
      | exn s1 ex =>
        rw [hb] at hbody
        by_cases hty : ex.ty = ty
        · simp only [Engine.run, hb, if_pos hty]
          rw [ih (handler ++ rest) s1 p hp]
          exact hbody
        · simp only [Engine.run, hb, if_neg hty, Engine.Res.state]
          exact hbody
    | Engine.Stmt.whileE c body :: rest =>
      cases he : Engine.evalExpr funcs s.env c with
      | error ex => simp only [Engine.run, he, Engine.Res.state]
      | ok v =>
        cases htr : Engine.truthy v with
        | true =>
          simp only [Engine.run, he, htr, if_true]
          exact ih (body ++ Engine.Stmt.whileE c body :: rest) s p hp
        | false =>
          simp only [Engine.run, he, htr, Bool.false_eq_true, if_false]
          exact ih rest s p hp

/-- Claim C1: with an allowed path `d`, an execution request mutates nothing
outside `d` — the content found at any path not under `d` after the request
is exactly the one before — and the denied-write snippet of the test suite
catches the `PermissionError` inside the snippet, finishing with `escaped =
false` and an empty error while the outside file stays uncreated. -/
theorem claim_C1_path_restriction :
    (∀ (fs : Engine.SandFS) (code : Engine.Code) (timeout : Nat) (funcs : Engine.Funcs)
        (d p : Engine.EPath), List.isPrefixOf d p = false →
      Recall.alookup (Engine.execRequest fs code timeout (some d) funcs).2.files p =
        Recall.alookup fs.files p) ∧
    (Engine.execute_sandboxed_code (Engine.SandFS.mk []) Engine.escapeCode
      Engine.SANDBOX_TIMEOUT (some [r"tmp", r"memory"]) [] =
      ([(r"escaped", Engine.Val.bool false)], r"")) ∧
    (Recall.alookup (Engine.execRequest (Engine.SandFS.mk []) Engine.escapeCode
      Engine.SANDBOX_TIMEOUT (some [r"tmp", r"memory"]) []).2.files
      [r"tmp", r"secret.txt"] = none) := by
  refine ⟨?_, by decide, by decide⟩
  intro fs code timeout funcs d p hp
  cases code with
  | malformed msg => rfl
  | prog stmts =>
    have hout := run_outside_unchanged funcs d timeout stmts ⟨ [], fs⟩ p hp
    simp only [Engine.execRequest]
    cases hr : Engine.run funcs (some d) timeout stmts ⟨ [], fs⟩ with
    | ok s1 =>
      rw [hr] at hout
      exact hout
    | exn s1 ex =>
      rw [hr] at hout
      exact hout
    | timedOut s1 =>
      rw [hr] at hout
      exact hout

/-- Witness for claim C1: a store holding one file outside the allowed
directory, a snippet writing inside the allowed directory, and the outside
file seen unchanged afterwards. -/
theorem claim_C1_witness :
    Recall.alookup (Engine.execRequest
      (Engine.SandFS.mk [([r"home", r"secret.txt"], r"s")])
      (Engine.Code.prog [Engine.Stmt.openWrite [r"tmp", r"memory", r"a.md"]
        (Engine.Expr.lit (Engine.Val.str r"x"))])
      Engine.SANDBOX_TIMEOUT (some [r"tmp", r"memory"]) []).2.files
      [r"home", r"secret.txt"] = some (r"s") :=
  Eq.trans
    (claim_C1_path_restriction.1
      (Engine.SandFS.mk [([r"home", r"secret.txt"], r"s")])
      (Engine.Code.prog [Engine.Stmt.openWrite [r"tmp", r"memory", r"a.md"]
        (Engine.Expr.lit (Engine.Val.str r"x"))])
      Engine.SANDBOX_TIMEOUT [] [r"tmp", r"memory"] [r"home", r"secret.txt"]
      (by decide))
    (by decide)

/-- Claim C4: the error string of a request is empty exactly when the
snippet parsed and ran to completion, so every failing snippet — unparsable
text, an explicit raise, a division by zero, an undefined name, any
uncaught exception — yields a non-empty error naming the failure, with
empty or partial bindings; the executor always returns a result (it is a
total function), never an uncaught fault. -/
theorem claim_C4_failure_reporting :
    (∀ (fs : Engine.SandFS) (code : Engine.Code) (timeout : Nat)
        (ap : Option Engine.EPath) (funcs : Engine.Funcs),
      ((Engine.execute_sandboxed_code fs code timeout ap funcs).2 = r"" ↔
        ∃ stmts s1, code = Engine.Code.prog stmts ∧
          Engine.run funcs ap timeout stmts ⟨ [], fs⟩ = Engine.Res.ok s1)) ∧
    (Engine.execute_sandboxed_code (Engine.SandFS.mk [])
      (Engine.Code.prog [Engine.Stmt.assign (r"x")
        (Engine.Expr.div (Engine.Expr.lit (Engine.Val.int 1)) (Engine.Expr.lit (Engine.Val.int 0)))])
      Engine.SANDBOX_TIMEOUT none [] = ([], r"ZeroDivisionError: division by zero")) ∧
    (Engine.execute_sandboxed_code (Engine.SandFS.mk [])
      (Engine.Code.prog [Engine.Stmt.raiseS (r"ValueError") (r"test error")])
      Engine.SANDBOX_TIMEOUT none [] = ([], r"ValueError: test error")) ∧
    (Engine.execute_sandboxed_code (Engine.SandFS.mk [])
      (Engine.Code.prog [Engine.Stmt.assign (r"x") (Engine.Expr.var (r"undefined_variable"))])
      Engine.SANDBOX_TIMEOUT none [] =
      ([], r"NameError: name undefined_variable is not defined")) ∧
    (∀ (fs : Engine.SandFS) (timeout : Nat) (ap : Option Engine.EPath)
        (funcs : Engine.Funcs) (msg : String),
      Engine.execute_sandboxed_code fs (Engine.Code.malformed msg) timeout ap funcs =
        ([], r"SyntaxError: " ++ msg)) := by
  refine ⟨?_, by decide, by decide, by decide, fun fs timeout ap funcs msg => rfl⟩
  intro fs code timeout ap funcs
  cases code with
  | malformed msg =>
    simp only [Engine.execute_sandboxed_code, Engine.execRequest]
    constructor
    · intro h
      exfalso
      have hlen := congrArg String.length h
      rw [String.length_append] at hlen
      simp at hlen
      exact absurd hlen.1 (by decide)
    · rintro ⟨stmts, s1, heq, _⟩
      exact Engine.Code.noConfusion heq
  | prog stmts =>
    simp only [Engine.execute_sandboxed_code, Engine.execRequest]
    cases hr : Engine.run funcs ap timeout stmts ⟨ [], fs⟩ with
    | ok s1 =>
      constructor
      · intro _
        exact ⟨stmts, s1, rfl, hr⟩
      · intro _
        rfl
    | exn s1 ex =>
      constructor
      · intro h
        exfalso
        have hlen := congrArg String.length h
        rw [String.length_append, String.length_append] at hlen
        simp at hlen
        exact absurd hlen.1.2 (by decide)
      · rintro ⟨stmts2, s2, heq, hrun⟩
        have hst : stmts = stmts2 := by
          injection heq
        subst hst
        rw [hr] at hrun
        exact Engine.Res.noConfusion hrun
    | timedOut s1 =>
      constructor
      · intro h
        simp at h
      · rintro ⟨stmts2, s2, heq, hrun⟩
        have hst : stmts = stmts2 := by
          injection heq
        subst hst
        rw [hr] at hrun
        exact Engine.Res.noConfusion hrun

/-- Witness for claim C4: the error of a snippet that raises is non-empty,
through the equivalence applied to the concrete raising snippet. -/
theorem claim_C4_witness :
    ¬ (Engine.execute_sandboxed_code (Engine.SandFS.mk [])
      (Engine.Code.prog [Engine.Stmt.raiseS (r"ValueError") (r"boom")])
      Engine.SANDBOX_TIMEOUT none []).2 = r"" := by
  intro h
  obtain ⟨stmts, s1, heq, hrun⟩ := (claim_C4_failure_reporting.1 (Engine.SandFS.mk [])
    (Engine.Code.prog [Engine.Stmt.raiseS (r"ValueError") (r"boom")])
    Engine.SANDBOX_TIMEOUT none []).1 h
  have hst : [Engine.Stmt.raiseS (r"ValueError") (r"boom")] = stmts := by
    injection heq
  subst hst
  have hconc : Engine.run [] none Engine.SANDBOX_TIMEOUT
      [Engine.Stmt.raiseS (r"ValueError") (r"boom")] ⟨ [], Engine.SandFS.mk []⟩ =
      Engine.Res.exn ⟨ [], Engine.SandFS.mk []⟩
        (Engine.ExnInfo.mk (r"ValueError") (r"boom")) := by decide
  rw [hconc] at hrun
  exact Engine.Res.noConfusion hrun

/-! ### Claim about the MCP server tool -/

/-- Claim C9: `use_memory_agent` always returns a string: on success the
agent's reply stripped of surrounding whitespace (the empty string when the
reply is absent), and when agent construction or the chat call raises, the
string `agent_error: ` followed by the exception type name and message. -/
theorem claim_C9_use_memory_agent (runA : Server.AgentRun) (question filters : String) :
    (∀ reply, runA.construct = Except.ok () →
      runA.chat (Server.effective_question question filters) = Except.ok reply →
      Server.use_memory_agent runA question filters = Server.pyStrip (reply.getD r"")) ∧
    (runA.construct = Except.ok () →
      runA.chat (Server.effective_question question filters) = Except.ok none →
      Server.use_memory_agent runA question filters = r"") ∧
    (∀ e, runA.construct = Except.error e →
      Server.use_memory_agent runA question filters =
        r"agent_error: " ++ e.tyName ++ r": " ++ e.msg) ∧
    (∀ e, runA.construct = Except.ok () →
      runA.chat (Server.effective_question question filters) = Except.error e →
      Server.use_memory_agent runA question filters =
        r"agent_error: " ++ e.tyName ++ r": " ++ e.msg) := by
  refine ⟨?_, ?_, ?_, ?_⟩
  · intro reply h1 h2
    simp [Server.use_memory_agent, h1, h2]
  · intro h1 h2
    simp [Server.use_memory_agent, h1, h2]
    decide
  · intro e h1
    simp [Server.use_memory_agent, Server.agentErrorStr, h1]
  · intro e h1 h2
    simp [Server.use_memory_agent, Server.agentErrorStr, h1, h2]

/-- Witness for claim C9: a concrete agent whose chat replies with padded
text, and one whose chat raises. -/
theorem claim_C9_witness :
    Server.use_memory_agent
      (Server.AgentRun.mk (Except.ok ()) (fun _ => Except.ok (some (r"  hi  "))))
      (r"q") (r"") = r"hi" ∧
    Server.use_memory_agent
      (Server.AgentRun.mk
        (Except.error (Server.AgentExc.mk (r"RuntimeError") (r"boom")))
        (fun _ => Except.ok none))
      (r"q") (r"") = r"agent_error: RuntimeError: boom" := by
  constructor
  · have h := (claim_C9_use_memory_agent
      (Server.AgentRun.mk (Except.ok ()) (fun _ => Except.ok (some (r"  hi  "))))
      (r"q") (r"")).1 (some (r"  hi  ")) rfl rfl
    rw [h]
    decide
  · have h := (claim_C9_use_memory_agent
      (Server.AgentRun.mk
        (Except.error (Server.AgentExc.mk (r"RuntimeError") (r"boom")))
        (fun _ => Except.ok none))
      (r"q") (r"")).2.2.1 (Server.AgentExc.mk (r"RuntimeError") (r"boom")) rfl
    rw [h]
    decide

end Recall
